import Mathlib

/-!
Shallow embedding of the Ride Progression Engine of
`src/client/src/components/game/RideCamera.tsx`.

The Climb-Peak Analyzer (`firstPeakT`, lines 16-45) is a pure sampling
loop with exact comparisons; it is embedded over `ℚ` so that it stays
executable.  The per-frame Speed Integrator and Frame Orientation
Builder (the `useFrame` callback, lines 58-149) use `sqrt`, `sin`,
`cos`; they are embedded over `ℝ`.  The track curve and the tilt
lookup are external collaborators (built in `Track.tsx`, outside this
core) and are modelled as abstract function records, exactly at the
interface the core consumes: `pointAt`, `tangentAt`, `arcLength`,
`tiltAt`.
-/

namespace RideCamera

/-! ## Exact model of the Climb-Peak Analyzer -/

/-- A 3D vector with rational coordinates (exact model of a THREE.Vector3
as consumed by the peak-analysis loop). -/
structure Vec3Q where
  x : ℚ
  y : ℚ
  z : ℚ
deriving DecidableEq

/-- The curve interface consumed by the analyzer: `getPoint` and
`getTangent` of the externally built track curve. -/
structure CurveQ where
  pointAt : ℚ → Vec3Q
  tangentAt : ℚ → Vec3Q

/-- Comparison `point.y > maxHeight` where `maxHeight` starts at
`-Infinity` (modelled by `none`). -/
def aboveMax (maxHeight : Option ℚ) (y : ℚ) : Bool :=
  match maxHeight with
  | none => true
  | some m => decide (m < y)

/-- One pass of the sampling loop `for (let t = 0; t <= 0.5; t += 0.01)`
of `firstPeakT` (RideCamera.tsx lines 26-42), with `t = i/100` sampled
exactly (written `mkRat i 100`; the thresholds `0.1` and `-0.1` are
likewise `mkRat 1 10` and `mkRat (-1) 10`); `fuel` counts the remaining
iterations.  State: the running maximum height (`none` = `-Infinity`),
the recorded `peakT`, and the `foundClimb` flag.  The early `break` on
detected descent returns the current `peakT`. -/
def firstPeakAux (c : CurveQ) : Nat → Nat → Option ℚ → ℚ → Bool → ℚ
  | _, 0, _, peakT, _ => peakT
  | i, fuel + 1, maxHeight, peakT, foundClimb =>
    let t : ℚ := mkRat i 100
    let point := c.pointAt t
    let tangent := c.tangentAt t
    let foundClimb2 := if mkRat 1 10 < tangent.y then true else foundClimb
    let isNewMax := foundClimb2 && aboveMax maxHeight point.y
    let maxHeight2 := if isNewMax then some point.y else maxHeight
    let peakT2 := if isNewMax then t else peakT
    if foundClimb2 && decide (tangent.y < mkRat (-1) 10) && decide (peakT2 < t) then
      peakT2
    else
      firstPeakAux c (i + 1) fuel maxHeight2 peakT2 foundClimb2

/-- The scan over `t = 0, 0.01, ..., 0.5` (51 samples), starting from
`maxHeight = -Infinity`, `peakT = 0`, `foundClimb = false`. -/
def scanPeakT (c : CurveQ) : ℚ :=
  firstPeakAux c 0 51 none 0 false

/-- The full Climb-Peak Analyzer: fewer than 2 track points gives `0`;
otherwise the scan result when positive, else the fallback `0.2`
(RideCamera.tsx lines 16-45). -/
def firstPeakT (c : CurveQ) (numPoints : Nat) : ℚ :=
  if numPoints < 2 then 0
  else if 0 < scanPeakT c then scanPeakT c else 0.2

/-- Example curve for the analyzer: monotonically descending
(`tangent.y = -1` everywhere, height strictly decreasing). -/
def descCurveQ : CurveQ :=
  { pointAt := fun t => ⟨0, -t, 0⟩
    tangentAt := fun _ => ⟨0, -1, 0⟩ }

/-- Example curve for the analyzer: monotonically climbing
(`tangent.y = 1` everywhere, height strictly increasing). -/
def climbCurveQ : CurveQ :=
  { pointAt := fun t => ⟨0, t, 0⟩
    tangentAt := fun _ => ⟨0, 1, 0⟩ }

/-! ## Real-valued vector model for the per-frame engine -/

/-- A 3D vector with real coordinates, modelling THREE.Vector3 in the
per-frame computation. -/
@[ext]
structure Vec3 where
  x : ℝ
  y : ℝ
  z : ℝ

namespace Vec3

instance : Add Vec3 := ⟨fun a b => ⟨a.x + b.x, a.y + b.y, a.z + b.z⟩⟩

instance : Sub Vec3 := ⟨fun a b => ⟨a.x - b.x, a.y - b.y, a.z - b.z⟩⟩

instance : SMul ℝ Vec3 := ⟨fun k v => ⟨k * v.x, k * v.y, k * v.z⟩⟩

@[simp] theorem add_x (a b : Vec3) : (a + b).x = a.x + b.x := rfl

@[simp] theorem add_y (a b : Vec3) : (a + b).y = a.y + b.y := rfl

@[simp] theorem add_z (a b : Vec3) : (a + b).z = a.z + b.z := rfl

@[simp] theorem sub_x (a b : Vec3) : (a - b).x = a.x - b.x := rfl

@[simp] theorem sub_y (a b : Vec3) : (a - b).y = a.y - b.y := rfl

@[simp] theorem sub_z (a b : Vec3) : (a - b).z = a.z - b.z := rfl

@[simp] theorem smul_x (k : ℝ) (v : Vec3) : (k • v).x = k * v.x := rfl

@[simp] theorem smul_y (k : ℝ) (v : Vec3) : (k • v).y = k * v.y := rfl

@[simp] theorem smul_z (k : ℝ) (v : Vec3) : (k • v).z = k * v.z := rfl

/-- Dot product. -/
def dot (a b : Vec3) : ℝ := a.x * b.x + a.y * b.y + a.z * b.z

/-- Cross product (THREE `crossVectors`). -/
def cross (a b : Vec3) : Vec3 :=
  ⟨a.y * b.z - a.z * b.y, a.z * b.x - a.x * b.z, a.x * b.y - a.y * b.x⟩

/-- Squared length (THREE `lengthSq`). -/
def lengthSq (v : Vec3) : ℝ := v.x * v.x + v.y * v.y + v.z * v.z

/-- Length. -/
noncomputable def length (v : Vec3) : ℝ := Real.sqrt v.lengthSq

/-- THREE `normalize`: divide by the length. -/
noncomputable def normalize (v : Vec3) : Vec3 := (1 / v.length) • v

/-- THREE `lerp(target, alpha)`: move `alpha` of the way toward
`target`. -/
def lerp (a b : Vec3) (alpha : ℝ) : Vec3 := a + alpha • (b - a)

end Vec3

/-- World up vector `(0, 1, 0)` (RideCamera.tsx line 107). -/
def worldUp : Vec3 := ⟨0, 1, 0⟩

/-- Right vector: cross the tangent with world up, replace by `(1,0,0)`
when the squared length is below `0.001` (vertical section), then
normalize (RideCamera.tsx lines 110-117). -/
noncomputable def rightVec (tangent : Vec3) : Vec3 :=
  let r := Vec3.cross tangent worldUp
  Vec3.normalize (if r.lengthSq < 0.001 then ⟨1, 0, 0⟩ else r)

/-- Base up vector: normalized cross of right with the tangent
(RideCamera.tsx line 120). -/
noncomputable def baseUpVec (tangent : Vec3) : Vec3 :=
  Vec3.normalize (Vec3.cross (rightVec tangent) tangent)

/-- THREE `applyAxisAngle` for a unit axis (Rodrigues rotation). -/
noncomputable def rotateAxisAngle (axis : Vec3) (angle : ℝ) (v : Vec3) : Vec3 :=
  Real.cos angle • v + Real.sin angle • Vec3.cross axis v
    + ((1 - Real.cos angle) * Vec3.dot axis v) • axis

/-- The banked up vector: `baseUp` rotated around the tangent by the
tilt angle in radians (RideCamera.tsx line 127). -/
noncomputable def upVec (tangent : Vec3) (tiltRad : ℝ) : Vec3 :=
  rotateAxisAngle tangent tiltRad (baseUpVec tangent)

/-! ## Speed Integrator -/

/-- Energy-conservation speed `sqrt(2 * 9.8 * max(0, heightDrop))` where
`heightDrop = maxHeightReached - currentHeight` (RideCamera.tsx lines
75-78). -/
noncomputable def energySpeed (maxHeightReached currentHeight : ℝ) : ℝ :=
  Real.sqrt (2 * 9.8 * max 0 (maxHeightReached - currentHeight))

/-- Per-frame speed (RideCamera.tsx lines 66-82).  In the chain-lift
phase (`hasChainLift` and `progress < firstPeakT`) the speed is the
fixed climb rate `0.9 * rideSpeed`.  Otherwise the energy formula is
applied to the freshly updated maximum height
`max maxHeightReached currentHeight`, with the pre-scale floor `1.0`. -/
noncomputable def speedOf (hasChainLift : Bool) (firstPeak rideSpeed progress
    maxHeightReached currentHeight : ℝ) : ℝ :=
  if hasChainLift = true ∧ progress < firstPeak then
    0.9 * rideSpeed
  else
    max 1 (energySpeed (max maxHeightReached currentHeight) currentHeight) * rideSpeed

/-- The curve interface consumed per frame: `getPoint`, `getTangent`
and `getLength` of the externally built track curve. -/
structure Curve where
  pointAt : ℝ → Vec3
  tangentAt : ℝ → Vec3
  arcLength : ℝ

/-- Persistent ride state mutated by the frame callback: the stored
ride progress, `maxHeightReached`, and the two smoothed pose vectors
`previousCameraPos` and `previousLookAt`. -/
structure RideState where
  progress : ℝ
  maxHeightReached : ℝ
  prevCameraPos : Vec3
  prevLookAt : Vec3

/-- Result of one frame: the updated persistent state, whether
`stopRide()` was invoked, and the camera pose applied this frame
(`none` when orientation was not computed). -/
structure FrameResult where
  state : RideState
  stopRideCalled : Bool
  cameraPose : Option (Vec3 × Vec3)

/-- Progress advancement `progress + (speed * delta) / curveLength`
(RideCamera.tsx lines 84-85). -/
noncomputable def newProgressOf (c : Curve) (hasChainLift : Bool)
    (rideSpeed firstPeak delta : ℝ) (s : RideState) : ℝ :=
  s.progress +
    speedOf hasChainLift firstPeak rideSpeed s.progress s.maxHeightReached
      (c.pointAt s.progress).y * delta / c.arcLength

/-! ## Frame Orientation Builder -/

/-- Orientation and smoothing for one frame at progress `np`
(RideCamera.tsx lines 102-145): basis from the normalized tangent,
banked up vector from the external tilt lookup, camera offset `1.5`
along it, look-ahead `np + 0.03` (wrapped when looped, else clamped to
`0.999`) with offset `1.5 * 0.8`, then `lerp(_, 0.25)` of both
persistent pose vectors toward the new targets.  Returns the new
(smoothed) camera position and look-at point. -/
noncomputable def orientationStep (c : Curve) (tiltAt : ℝ → ℝ) (isLooped : Bool)
    (np : ℝ) (prevCameraPos prevLookAt : Vec3) : Vec3 × Vec3 :=
  let position := c.pointAt np
  let tangent := Vec3.normalize (c.tangentAt np)
  let tiltRad := tiltAt np * Real.pi / 180
  let upVector := upVec tangent tiltRad
  let cameraHeight : ℝ := 1.5
  let targetCameraPos := position + cameraHeight • upVector
  let lookAheadT := if isLooped = true then Int.fract (np + 0.03) else min (np + 0.03) 0.999
  let targetLookAt := c.pointAt lookAheadT + (cameraHeight * 0.8) • upVector
  (Vec3.lerp prevCameraPos targetCameraPos 0.25, Vec3.lerp prevLookAt targetLookAt 0.25)

/-- One invocation of the `useFrame` callback (RideCamera.tsx lines
58-149).  When not riding nothing happens.  Otherwise the maximum
height is updated, the speed and the advanced progress are computed;
on completion (`newProgress >= 1`) a looped ride wraps modulo 1
(resetting the maximum height to the start height when chain lift is
present) while a non-looped ride calls `stopRide()` and returns before
storing progress or computing orientation; otherwise (and after a
wrap) the orientation builder runs and the smoothed pose is applied. -/
noncomputable def frameStep (c : Curve) (tiltAt : ℝ → ℝ)
    (isRiding isLooped hasChainLift : Bool)
    (rideSpeed firstPeak delta : ℝ) (s : RideState) : FrameResult :=
  if isRiding = false then ⟨s, false, none⟩
  else
    let currentHeight := (c.pointAt s.progress).y
    let maxH := max s.maxHeightReached currentHeight
    let newProgress := newProgressOf c hasChainLift rideSpeed firstPeak delta s
    if 1 ≤ newProgress then
      if isLooped = true then
        let np := Int.fract newProgress
        let maxH2 := if hasChainLift = true then (c.pointAt 0).y else maxH
        let pose := orientationStep c tiltAt isLooped np s.prevCameraPos s.prevLookAt
        ⟨⟨np, maxH2, pose.1, pose.2⟩, false, some pose⟩
      else
        ⟨⟨s.progress, maxH, s.prevCameraPos, s.prevLookAt⟩, true, none⟩
    else
      let pose := orientationStep c tiltAt isLooped newProgress s.prevCameraPos s.prevLookAt
      ⟨⟨newProgress, maxH, pose.1, pose.2⟩, false, some pose⟩

/-- A flat track curve at height 0 with unit arc length, used as a
concrete instance of the external curve interface. -/
def flatCurve : Curve :=
  { pointAt := fun _ => ⟨0, 0, 0⟩
    tangentAt := fun _ => ⟨1, 0, 0⟩
    arcLength := 1 }

/-- A tilt lookup that is zero everywhere. -/
def zeroTilt : ℝ → ℝ := fun _ => 0

/-! ## Lemmas about the Climb-Peak Analyzer -/

/-- The scan loop keeps its result inside `[0, 1/2]`: every value ever
written into `peakT` is a sample `i/100` with `i ≤ 50`. -/
theorem firstPeakAux_mem (c : CurveQ) :
    ∀ fuel i maxHeight peakT foundClimb,
      0 ≤ peakT → peakT ≤ 1 / 2 → i + fuel ≤ 51 →
      0 ≤ firstPeakAux c i fuel maxHeight peakT foundClimb ∧
        firstPeakAux c i fuel maxHeight peakT foundClimb ≤ 1 / 2 := by
  intro fuel
  induction fuel with
  | zero =>
    intro i mh pk fc h0 h1 _
    exact ⟨h0, h1⟩
  | succ n ih =>
    intro i mh pk fc h0 h1 hif
    have hi : i ≤ 50 := by omega
    have hin : i + 1 + n ≤ 51 := by omega
    have htd : mkRat i 100 = (i : ℚ) / 100 := by
      rw [Rat.mkRat_eq_div]
      push_cast
      ring
    have ht0 : (0 : ℚ) ≤ mkRat i 100 := by rw [htd]; positivity
    have ht1 : mkRat i 100 ≤ 1 / 2 := by
      rw [htd]
      have hc : (i : ℚ) ≤ 50 := by exact_mod_cast hi
      linarith
    simp only [firstPeakAux]
    repeat' split
    all_goals
      first
      | exact ⟨h0, h1⟩
      | exact ⟨ht0, ht1⟩
      | exact ih (i + 1) _ _ _ h0 h1 hin
      | exact ih (i + 1) _ _ _ ht0 ht1 hin

/-- When no sampled tangent ever exceeds the climb threshold `0.1`,
`foundClimb` stays false and the scan returns its initial `peakT`. -/
theorem firstPeakAux_no_climb (c : CurveQ)
    (hflat : ∀ t : ℚ, (c.tangentAt t).y ≤ mkRat 1 10) :
    ∀ fuel i maxHeight peakT,
      firstPeakAux c i fuel maxHeight peakT false = peakT := by
  intro fuel
  induction fuel with
  | zero => intro i mh pk; rfl
  | succ n ih =>
    intro i mh pk
    have h1 : ¬ (mkRat 1 10 < (c.tangentAt (mkRat i 100)).y) :=
      not_lt.mpr (hflat _)
    simp only [firstPeakAux, if_neg h1, Bool.false_and, Bool.false_eq_true,
      if_false]
    exact ih (i + 1) _ _

/-! ## Claim theorems for the Climb-Peak Analyzer -/

/-- C8: for every track-point sequence and curve, the value returned by
the Climb-Peak Analyzer lies in `[0, 0.5]`: sampled peak parameters
never exceed `0.5`, and the fallback `0.2` and the degenerate value `0`
are both in range. -/
theorem firstPeakT_range (c : CurveQ) (numPoints : Nat) :
    0 ≤ firstPeakT c numPoints ∧ firstPeakT c numPoints ≤ 1 / 2 := by
  unfold firstPeakT
  split
  · norm_num
  · split
    · exact firstPeakAux_mem c 51 0 none 0 false le_rfl (by norm_num) (by omega)
    · norm_num

/-- C5: the Climb-Peak Analyzer returns the scanned peak parameter when
it is positive, returns exactly the fallback `0.2` when no climb is
detected (for instance on a monotonically descending curve), and
returns `0` when there are fewer than 2 track points. -/
theorem firstPeakT_cases (c : CurveQ) (numPoints : Nat) :
    (numPoints < 2 → firstPeakT c numPoints = 0)
    ∧ (2 ≤ numPoints → 0 < scanPeakT c → firstPeakT c numPoints = scanPeakT c)
    ∧ (2 ≤ numPoints → (∀ t : ℚ, (c.tangentAt t).y < 0) →
        firstPeakT c numPoints = 0.2) := by
  refine ⟨?_, ?_, ?_⟩
  · intro h
    simp [firstPeakT, h]
  · intro h2 hpos
    have hn : ¬ numPoints < 2 := by omega
    simp [firstPeakT, hn, hpos]
  · intro h2 hdesc
    have hn : ¬ numPoints < 2 := by omega
    have hscan : scanPeakT c = 0 :=
      firstPeakAux_no_climb c
        (fun t => (hdesc t).le.trans (by rw [Rat.mkRat_eq_div]; norm_num))
        51 0 none 0
    simp [firstPeakT, hn, hscan]

set_option maxRecDepth 10000 in
/-- Witness for C5: a descending curve hits the degenerate and fallback
branches, a climbing curve hits the positive-peak branch. -/
theorem firstPeakT_cases_witness :
    firstPeakT descCurveQ 1 = 0 ∧ firstPeakT descCurveQ 5 = 0.2
    ∧ firstPeakT climbCurveQ 5 = scanPeakT climbCurveQ
    ∧ 0 < scanPeakT climbCurveQ := by
  have hpos : 0 < scanPeakT climbCurveQ := by decide
  exact ⟨(firstPeakT_cases descCurveQ 1).1 (by norm_num),
    (firstPeakT_cases descCurveQ 5).2.2 (by norm_num)
      (fun t => by norm_num [descCurveQ]),
    (firstPeakT_cases climbCurveQ 5).2.1 (by norm_num) hpos, hpos⟩

/-! ## Vector algebra lemmas -/

namespace Vec3

theorem lengthSq_nonneg (v : Vec3) : 0 ≤ v.lengthSq := by
  unfold lengthSq
  nlinarith [mul_self_nonneg v.x, mul_self_nonneg v.y, mul_self_nonneg v.z]

theorem lengthSq_eq_zero_iff (v : Vec3) : v.lengthSq = 0 ↔ v = ⟨0, 0, 0⟩ := by
  unfold lengthSq
  constructor
  · intro h
    have hx : v.x = 0 := by
      nlinarith [mul_self_nonneg v.x, mul_self_nonneg v.y, mul_self_nonneg v.z]
    have hy : v.y = 0 := by
      nlinarith [mul_self_nonneg v.x, mul_self_nonneg v.y, mul_self_nonneg v.z]
    have hz : v.z = 0 := by
      nlinarith [mul_self_nonneg v.x, mul_self_nonneg v.y, mul_self_nonneg v.z]
    ext <;> simp [hx, hy, hz]
  · intro h
    rw [h]
    norm_num

theorem length_nonneg (v : Vec3) : 0 ≤ v.length := Real.sqrt_nonneg _

theorem length_eq_zero_iff (v : Vec3) : v.length = 0 ↔ v = ⟨0, 0, 0⟩ := by
  unfold length
  rw [Real.sqrt_eq_zero (lengthSq_nonneg v)]
  exact lengthSq_eq_zero_iff v

theorem lengthSq_smul (k : ℝ) (v : Vec3) :
    (k • v).lengthSq = k ^ 2 * v.lengthSq := by
  unfold lengthSq
  simp
  ring

theorem length_smul (k : ℝ) (v : Vec3) : (k • v).length = |k| * v.length := by
  unfold length
  rw [lengthSq_smul, Real.sqrt_mul (sq_nonneg k), Real.sqrt_sq_eq_abs]

theorem sq_length (v : Vec3) : v.length ^ 2 = v.lengthSq :=
  Real.sq_sqrt (lengthSq_nonneg v)

theorem lengthSq_normalize (v : Vec3) (h : 0 < v.lengthSq) :
    (Vec3.normalize v).lengthSq = 1 := by
  unfold normalize
  rw [lengthSq_smul, div_pow, one_pow, sq_length, div_mul_cancel₀]
  exact ne_of_gt h

theorem normalize_of_lengthSq_one (v : Vec3) (h : v.lengthSq = 1) :
    Vec3.normalize v = v := by
  unfold normalize length
  rw [h, Real.sqrt_one]
  ext <;> simp

theorem dot_comm (a b : Vec3) : a.dot b = b.dot a := by
  unfold dot
  ring

theorem dot_smul_left (k : ℝ) (a b : Vec3) : (k • a).dot b = k * a.dot b := by
  unfold dot
  simp
  ring

theorem dot_cross_left (a b : Vec3) : (Vec3.cross a b).dot a = 0 := by
  unfold cross dot
  ring

theorem dot_cross_right (a b : Vec3) : (Vec3.cross a b).dot b = 0 := by
  unfold cross dot
  ring

theorem lengthSq_cross (a b : Vec3) :
    (Vec3.cross a b).lengthSq = a.lengthSq * b.lengthSq - a.dot b ^ 2 := by
  unfold cross dot lengthSq
  ring

theorem lerp_sub (p t : Vec3) : Vec3.lerp p t 0.25 - t = (0.75 : ℝ) • (p - t) := by
  unfold lerp
  ext <;> simp <;> ring

theorem lerp_dist (p t : Vec3) :
    (Vec3.lerp p t 0.25 - t).length = 0.75 * (p - t).length := by
  rw [lerp_sub, length_smul]
  norm_num

end Vec3

/-! ## Claim theorems for the Frame Orientation Builder -/

/-- C6: for a unit tangent whose cross product with world up is not
near zero, `right` and `baseUp` are unit length, mutually orthogonal
with the tangent, and `cross right tangent = baseUp` makes
`(tangent, baseUp, right)` a right-handed orthonormal frame; the
pre-tilt up vector is exactly `baseUp`.  When the cross product is
near zero (`lengthSq < 0.001`), `right` falls back to `(1,0,0)`. -/
theorem orientation_basis (tangent : Vec3) (hunit : tangent.lengthSq = 1) :
    ((0.001 : ℝ) ≤ (Vec3.cross tangent worldUp).lengthSq →
      (rightVec tangent).length = 1
      ∧ (baseUpVec tangent).length = 1
      ∧ (rightVec tangent).dot tangent = 0
      ∧ (baseUpVec tangent).dot tangent = 0
      ∧ (rightVec tangent).dot (baseUpVec tangent) = 0
      ∧ Vec3.cross (rightVec tangent) tangent = baseUpVec tangent
      ∧ upVec tangent 0 = baseUpVec tangent)
    ∧ ((Vec3.cross tangent worldUp).lengthSq < 0.001 →
        rightVec tangent = ⟨1, 0, 0⟩) := by
  constructor
  · intro hnd
    have hns : ¬ (Vec3.cross tangent worldUp).lengthSq < 0.001 := not_lt.mpr hnd
    have hpos : 0 < (Vec3.cross tangent worldUp).lengthSq :=
      lt_of_lt_of_le (by norm_num) hnd
    have hrdef : rightVec tangent = Vec3.normalize (Vec3.cross tangent worldUp) := by
      simp only [rightVec]
      rw [if_neg hns]
    have hr1 : (rightVec tangent).lengthSq = 1 := by
      rw [hrdef]
      exact Vec3.lengthSq_normalize _ hpos
    have hrlen : (rightVec tangent).length = 1 := by
      unfold Vec3.length
      rw [hr1, Real.sqrt_one]
    have hdotrt : (rightVec tangent).dot tangent = 0 := by
      rw [hrdef]
      unfold Vec3.normalize
      rw [Vec3.dot_smul_left, Vec3.dot_cross_left, mul_zero]
    have hcross1 : (Vec3.cross (rightVec tangent) tangent).lengthSq = 1 := by
      rw [Vec3.lengthSq_cross, hr1, hunit, hdotrt]
      norm_num
    have hbase : baseUpVec tangent = Vec3.cross (rightVec tangent) tangent := by
      unfold baseUpVec
      exact Vec3.normalize_of_lengthSq_one _ hcross1
    have hblen : (baseUpVec tangent).length = 1 := by
      unfold Vec3.length
      rw [hbase, hcross1, Real.sqrt_one]
    have hdotbt : (baseUpVec tangent).dot tangent = 0 := by
      rw [hbase]
      exact Vec3.dot_cross_right _ _
    have hdotrb : (rightVec tangent).dot (baseUpVec tangent) = 0 := by
      rw [hbase, Vec3.dot_comm]
      exact Vec3.dot_cross_left _ _
    have hup : upVec tangent 0 = baseUpVec tangent := by
      unfold upVec rotateAxisAngle
      rw [Real.cos_zero, Real.sin_zero]
      ext <;> simp
    exact ⟨hrlen, hblen, hdotrt, hdotbt, hdotrb, hbase.symm, hup⟩
  · intro hdeg
    simp only [rightVec]
    rw [if_pos hdeg]
    apply Vec3.normalize_of_lengthSq_one
    unfold Vec3.lengthSq
    norm_num

/-- Witness for C6: the horizontal unit tangent `(1,0,0)` gives a valid
basis; the vertical tangent `(0,1,0)` triggers the `(1,0,0)` fallback. -/
theorem orientation_basis_witness :
    (rightVec ⟨1, 0, 0⟩).length = 1
    ∧ (rightVec ⟨1, 0, 0⟩).dot ⟨1, 0, 0⟩ = 0
    ∧ Vec3.cross (rightVec ⟨1, 0, 0⟩) ⟨1, 0, 0⟩ = baseUpVec ⟨1, 0, 0⟩
    ∧ rightVec ⟨0, 1, 0⟩ = ⟨1, 0, 0⟩ := by
  have h1 : (Vec3.mk 1 0 0).lengthSq = 1 := by
    unfold Vec3.lengthSq
    norm_num
  have h2 : (Vec3.mk 0 1 0).lengthSq = 1 := by
    unfold Vec3.lengthSq
    norm_num
  have hc1 : (0.001 : ℝ) ≤ (Vec3.cross ⟨1, 0, 0⟩ worldUp).lengthSq := by
    unfold Vec3.cross Vec3.lengthSq worldUp
    norm_num
  have hc2 : (Vec3.cross ⟨0, 1, 0⟩ worldUp).lengthSq < 0.001 := by
    unfold Vec3.cross Vec3.lengthSq worldUp
    norm_num
  obtain ⟨ha, _, hb, _, _, hc, _⟩ := (orientation_basis ⟨1, 0, 0⟩ h1).1 hc1
  exact ⟨ha, hb, hc, (orientation_basis ⟨0, 1, 0⟩ h2).2 hc2⟩

/-- C7: one smoothing step `lerp(previous, target, 0.25)` scales the
distance to a constant target by exactly `0.75`, hence strictly
decreases it whenever `previous` differs from `target`, and iterating
the step makes the distance tend to `0`. -/
theorem smoothing_contraction (p t : Vec3) (h : p ≠ t) :
    (Vec3.lerp p t 0.25 - t).length = 0.75 * (p - t).length
    ∧ (Vec3.lerp p t 0.25 - t).length < (p - t).length
    ∧ Filter.Tendsto (fun n => ((fun q => Vec3.lerp q t 0.25)^[n] p - t).length)
        Filter.atTop (nhds 0) := by
  have hpos : 0 < (p - t).length := by
    rcases lt_or_eq_of_le (Vec3.length_nonneg (p - t)) with hl | hl
    · exact hl
    · exfalso
      apply h
      have hz : p - t = ⟨0, 0, 0⟩ := (Vec3.length_eq_zero_iff _).mp hl.symm
      have hx := congrArg Vec3.x hz
      have hy := congrArg Vec3.y hz
      have hzz := congrArg Vec3.z hz
      simp at hx hy hzz
      ext
      · linarith
      · linarith
      · linarith
  refine ⟨Vec3.lerp_dist p t, ?_, ?_⟩
  · rw [Vec3.lerp_dist]
    linarith
  · have hiter : ∀ n : ℕ,
        ((fun q => Vec3.lerp q t 0.25)^[n] p - t).length
          = (0.75 : ℝ) ^ n * (p - t).length := by
      intro n
      induction n with
      | zero => simp
      | succ k ihk =>
        rw [Function.iterate_succ_apply', Vec3.lerp_dist, ihk]
        ring
    have h0 : Filter.Tendsto (fun n : ℕ => (0.75 : ℝ) ^ n) Filter.atTop (nhds 0) :=
      tendsto_pow_atTop_nhds_zero_of_lt_one (by norm_num) (by norm_num)
    have hmul := h0.mul_const ((p - t).length)
    rw [zero_mul] at hmul
    exact Filter.Tendsto.congr (fun n => (hiter n).symm) hmul

/-! ## Frame-step unfolding lemmas -/

/-- A non-looped frame whose advanced progress reaches 1 stops the
ride: progress and the pose vectors are untouched, the maximum height
keeps the update made earlier in the frame, no pose is produced. -/
theorem frameStep_stop (c : Curve) (tiltAt : ℝ → ℝ) (hasChainLift : Bool)
    (rideSpeed firstPeak delta : ℝ) (s : RideState)
    (hnp : 1 ≤ newProgressOf c hasChainLift rideSpeed firstPeak delta s) :
    frameStep c tiltAt true false hasChainLift rideSpeed firstPeak delta s =
      ⟨⟨s.progress, max s.maxHeightReached (c.pointAt s.progress).y,
        s.prevCameraPos, s.prevLookAt⟩, true, none⟩ := by
  simp only [frameStep]
  rw [if_neg (by simp : ¬ (true = false)), if_pos hnp,
    if_neg (by simp : ¬ (false = true))]

/-- A looped frame whose advanced progress reaches 1 wraps modulo 1 and
runs the orientation builder at the wrapped progress; with chain lift
the maximum height resets to the start height. -/
theorem frameStep_wrap (c : Curve) (tiltAt : ℝ → ℝ) (hasChainLift : Bool)
    (rideSpeed firstPeak delta : ℝ) (s : RideState)
    (hnp : 1 ≤ newProgressOf c hasChainLift rideSpeed firstPeak delta s) :
    frameStep c tiltAt true true hasChainLift rideSpeed firstPeak delta s =
      ⟨⟨Int.fract (newProgressOf c hasChainLift rideSpeed firstPeak delta s),
        if hasChainLift = true then (c.pointAt 0).y
          else max s.maxHeightReached (c.pointAt s.progress).y,
        (orientationStep c tiltAt true
          (Int.fract (newProgressOf c hasChainLift rideSpeed firstPeak delta s))
          s.prevCameraPos s.prevLookAt).1,
        (orientationStep c tiltAt true
          (Int.fract (newProgressOf c hasChainLift rideSpeed firstPeak delta s))
          s.prevCameraPos s.prevLookAt).2⟩, false,
        some (orientationStep c tiltAt true
          (Int.fract (newProgressOf c hasChainLift rideSpeed firstPeak delta s))
          s.prevCameraPos s.prevLookAt)⟩ := by
  simp only [frameStep]
  rw [if_neg (by simp : ¬ (true = false)), if_pos hnp]
  simp

/-- A frame whose advanced progress stays below 1 stores the advanced
progress, keeps the updated maximum height, and runs the orientation
builder at the advanced progress. -/
theorem frameStep_advance (c : Curve) (tiltAt : ℝ → ℝ)
    (isLooped hasChainLift : Bool)
    (rideSpeed firstPeak delta : ℝ) (s : RideState)
    (hnp : newProgressOf c hasChainLift rideSpeed firstPeak delta s < 1) :
    frameStep c tiltAt true isLooped hasChainLift rideSpeed firstPeak delta s =
      ⟨⟨newProgressOf c hasChainLift rideSpeed firstPeak delta s,
        max s.maxHeightReached (c.pointAt s.progress).y,
        (orientationStep c tiltAt isLooped
          (newProgressOf c hasChainLift rideSpeed firstPeak delta s)
          s.prevCameraPos s.prevLookAt).1,
        (orientationStep c tiltAt isLooped
          (newProgressOf c hasChainLift rideSpeed firstPeak delta s)
          s.prevCameraPos s.prevLookAt).2⟩, false,
        some (orientationStep c tiltAt isLooped
          (newProgressOf c hasChainLift rideSpeed firstPeak delta s)
          s.prevCameraPos s.prevLookAt)⟩ := by
  simp only [frameStep]
  rw [if_neg (by simp : ¬ (true = false)), if_neg (not_le.mpr hnp)]

/-- On the flat example curve at height 0 with no height history,
`energySpeed` vanishes. -/
theorem energySpeed_flat : energySpeed (max (0 : ℝ) 0) 0 = 0 := by
  unfold energySpeed
  norm_num [Real.sqrt_zero]

/-- The energy speed vanishes when the maximum height equals the current
height 0. -/
theorem energySpeed_zero : energySpeed (0 : ℝ) 0 = 0 := by
  unfold energySpeed
  norm_num [Real.sqrt_zero]

/-! ## Claim theorems for the Speed Integrator -/

/-- C1: in the gravity phase the speed is
`max 1 (energySpeed applied to the updated maximum height) * speedScale`,
where the maximum height has first been updated to
`max maxHeightReached currentHeight`; the pre-scale speed is at least
`1`. -/
theorem gravity_phase_speed (hasChainLift : Bool)
    (firstPeak rideSpeed progress maxHeightReached currentHeight : ℝ)
    (hg : ¬ (hasChainLift = true ∧ progress < firstPeak)) :
    speedOf hasChainLift firstPeak rideSpeed progress maxHeightReached currentHeight
      = max 1 (energySpeed (max maxHeightReached currentHeight) currentHeight)
          * rideSpeed
    ∧ 1 ≤ max 1 (energySpeed (max maxHeightReached currentHeight) currentHeight) := by
  unfold speedOf
  rw [if_neg hg]
  exact ⟨rfl, le_max_left _ _⟩

/-- Witness for C1: without chain lift, on the flat state the speed is
exactly the floor times the scale. -/
theorem gravity_phase_speed_witness :
    speedOf false 0.3 2 0.5 0 0 = 2
    ∧ 1 ≤ max 1 (energySpeed (max (0 : ℝ) 0) 0) := by
  have hg : ¬ ((false : Bool) = true ∧ (0.5 : ℝ) < 0.3) := by simp
  obtain ⟨he, hfloor⟩ := gravity_phase_speed false 0.3 2 0.5 0 0 hg
  refine ⟨?_, hfloor⟩
  rw [he, energySpeed_flat]
  norm_num

/-- C9: after the gravity-phase update of the maximum height, the
height drop is non-negative, the `max 0` clamp is the identity, and the
square-root argument of `energySpeed` is non-negative. -/
theorem heightDrop_nonneg (maxHeightReached currentHeight : ℝ) :
    0 ≤ max maxHeightReached currentHeight - currentHeight
    ∧ max 0 (max maxHeightReached currentHeight - currentHeight)
        = max maxHeightReached currentHeight - currentHeight
    ∧ energySpeed (max maxHeightReached currentHeight) currentHeight
        = Real.sqrt (2 * 9.8 * (max maxHeightReached currentHeight - currentHeight))
    ∧ 0 ≤ 2 * 9.8 * (max maxHeightReached currentHeight - currentHeight) := by
  have h1 : 0 ≤ max maxHeightReached currentHeight - currentHeight :=
    sub_nonneg.mpr (le_max_right _ _)
  have h2 : max 0 (max maxHeightReached currentHeight - currentHeight)
      = max maxHeightReached currentHeight - currentHeight := max_eq_right h1
  refine ⟨h1, h2, ?_, by nlinarith⟩
  unfold energySpeed
  rw [h2]

/-- C2: on a non-looped track, a frame whose advanced progress reaches
1 invokes the ride-stop signal, leaves the stored progress unchanged,
and produces no camera pose. -/
theorem nonlooped_termination (c : Curve) (tiltAt : ℝ → ℝ) (hasChainLift : Bool)
    (rideSpeed firstPeak delta : ℝ) (s : RideState)
    (hnp : 1 ≤ newProgressOf c hasChainLift rideSpeed firstPeak delta s) :
    (frameStep c tiltAt true false hasChainLift rideSpeed firstPeak delta s).stopRideCalled
        = true
    ∧ (frameStep c tiltAt true false hasChainLift rideSpeed firstPeak delta s).state.progress
        = s.progress
    ∧ (frameStep c tiltAt true false hasChainLift rideSpeed firstPeak delta s).cameraPose
        = none := by
  rw [frameStep_stop c tiltAt hasChainLift rideSpeed firstPeak delta s hnp]
  exact ⟨rfl, rfl, rfl⟩

/-- Witness for C2: a flat unit-length non-looped ride at progress 1/2
with delta 2 overshoots 1 and stops. -/
theorem nonlooped_termination_witness :
    (frameStep flatCurve zeroTilt true false false 1 0.2 2
        ⟨1 / 2, 0, ⟨0, 0, 0⟩, ⟨0, 0, 0⟩⟩).stopRideCalled = true
    ∧ (frameStep flatCurve zeroTilt true false false 1 0.2 2
        ⟨1 / 2, 0, ⟨0, 0, 0⟩, ⟨0, 0, 0⟩⟩).state.progress = 1 / 2
    ∧ (frameStep flatCurve zeroTilt true false false 1 0.2 2
        ⟨1 / 2, 0, ⟨0, 0, 0⟩, ⟨0, 0, 0⟩⟩).cameraPose = none := by
  have hnp : 1 ≤ newProgressOf flatCurve false 1 0.2 2
      ⟨1 / 2, 0, ⟨0, 0, 0⟩, ⟨0, 0, 0⟩⟩ := by
    unfold newProgressOf speedOf flatCurve
    norm_num [energySpeed_zero, max_def]
  exact nonlooped_termination flatCurve zeroTilt false 1 0.2 2 _ hnp

/-- C3: on a looped track, a frame whose advanced progress reaches 1
stores `newProgress mod 1 = newProgress - floor newProgress`, which
lies in `[0, 1)`; with chain lift present, the maximum height is reset
to the curve height at `t = 0` in the same frame. -/
theorem looped_wrap (c : Curve) (tiltAt : ℝ → ℝ) (hasChainLift : Bool)
    (rideSpeed firstPeak delta : ℝ) (s : RideState)
    (hnp : 1 ≤ newProgressOf c hasChainLift rideSpeed firstPeak delta s) :
    (frameStep c tiltAt true true hasChainLift rideSpeed firstPeak delta s).state.progress
        = Int.fract (newProgressOf c hasChainLift rideSpeed firstPeak delta s)
    ∧ Int.fract (newProgressOf c hasChainLift rideSpeed firstPeak delta s)
        = newProgressOf c hasChainLift rideSpeed firstPeak delta s
          - ⌊newProgressOf c hasChainLift rideSpeed firstPeak delta s⌋
    ∧ 0 ≤ (frameStep c tiltAt true true hasChainLift rideSpeed firstPeak delta s).state.progress
    ∧ (frameStep c tiltAt true true hasChainLift rideSpeed firstPeak delta s).state.progress < 1
    ∧ (hasChainLift = true →
        (frameStep c tiltAt true true hasChainLift rideSpeed firstPeak delta s).state.maxHeightReached
          = (c.pointAt 0).y) := by
  rw [frameStep_wrap c tiltAt hasChainLift rideSpeed firstPeak delta s hnp]
  refine ⟨rfl, rfl, Int.fract_nonneg _, Int.fract_lt_one _, ?_⟩
  intro hc
  simp [hc]

/-- Witness for C3: a flat looped chain-lift ride at progress 1/2 with
delta 2 advances to 5/2, wraps to 1/2, and resets the maximum height to
the start height 0. -/
theorem looped_wrap_witness :
    (frameStep flatCurve zeroTilt true true true 1 0.3 2
        ⟨1 / 2, 0, ⟨0, 0, 0⟩, ⟨0, 0, 0⟩⟩).state.progress = 1 / 2
    ∧ (frameStep flatCurve zeroTilt true true true 1 0.3 2
        ⟨1 / 2, 0, ⟨0, 0, 0⟩, ⟨0, 0, 0⟩⟩).state.maxHeightReached
        = (flatCurve.pointAt 0).y := by
  have hval : newProgressOf flatCurve true 1 0.3 2
      ⟨1 / 2, 0, ⟨0, 0, 0⟩, ⟨0, 0, 0⟩⟩ = 5 / 2 := by
    unfold newProgressOf speedOf flatCurve
    norm_num [energySpeed_zero, max_def]
  have hnp : 1 ≤ newProgressOf flatCurve true 1 0.3 2
      ⟨1 / 2, 0, ⟨0, 0, 0⟩, ⟨0, 0, 0⟩⟩ := by
    rw [hval]
    norm_num
  obtain ⟨h1, _, _, _, h5⟩ := looped_wrap flatCurve zeroTilt true 1 0.3 2 _ hnp
  refine ⟨?_, h5 rfl⟩
  rw [h1, hval]
  norm_num [Int.fract]

/-- C4: with chain lift active and progress below the first peak, the
speed is exactly `0.9 * speedScale` independent of height history, and
the frame updates the maximum height to
`max maxHeightReached currentHeight`; once progress reaches the peak,
the speed switches to the energy-based formula. -/
theorem chain_lift_phase (c : Curve) (tiltAt : ℝ → ℝ) (isLooped : Bool)
    (rideSpeed firstPeak delta : ℝ) (s : RideState)
    (hlt : s.progress < firstPeak)
    (hnc : newProgressOf c true rideSpeed firstPeak delta s < 1) :
    speedOf true firstPeak rideSpeed s.progress s.maxHeightReached
        (c.pointAt s.progress).y = 0.9 * rideSpeed
    ∧ (frameStep c tiltAt true isLooped true rideSpeed firstPeak delta s).state.maxHeightReached
        = max s.maxHeightReached (c.pointAt s.progress).y
    ∧ (∀ progress2 maxHeightReached2 currentHeight2 : ℝ,
        firstPeak ≤ progress2 →
        speedOf true firstPeak rideSpeed progress2 maxHeightReached2 currentHeight2
          = max 1 (energySpeed (max maxHeightReached2 currentHeight2) currentHeight2)
              * rideSpeed) := by
  refine ⟨?_, ?_, ?_⟩
  · unfold speedOf
    rw [if_pos ⟨rfl, hlt⟩]
  · rw [frameStep_advance c tiltAt isLooped true rideSpeed firstPeak delta s hnc]
  · intro progress2 maxHeightReached2 currentHeight2 hge
    unfold speedOf
    rw [if_neg (by rintro ⟨-, hlt2⟩; exact absurd hlt2 (not_lt.mpr hge))]

/-- Witness for C4: at progress 0 below the peak 0.3 the chain speed is
0.9, the maximum height updates, and at progress 1/2 past the peak the
energy formula takes over. -/
theorem chain_lift_phase_witness :
    speedOf true 0.3 1 0 0 0 = 0.9 * 1
    ∧ (frameStep flatCurve zeroTilt true false true 1 0.3 (1 / 2)
        ⟨0, 0, ⟨0, 0, 0⟩, ⟨0, 0, 0⟩⟩).state.maxHeightReached = 0
    ∧ speedOf true 0.3 1 (1 / 2) 0 0
        = max 1 (energySpeed (max (0 : ℝ) 0) 0) * 1 := by
  have hnc : newProgressOf flatCurve true 1 0.3 (1 / 2)
      ⟨0, 0, ⟨0, 0, 0⟩, ⟨0, 0, 0⟩⟩ < 1 := by
    unfold newProgressOf speedOf flatCurve
    norm_num
  obtain ⟨h1, h2, h3⟩ :=
    chain_lift_phase flatCurve zeroTilt false 1 0.3 (1 / 2) _ (by norm_num) hnc
  refine ⟨?_, ?_, h3 (1 / 2) 0 0 (by norm_num)⟩
  · exact h1
  · rw [h2]
    show max (0 : ℝ) (flatCurve.pointAt 0).y = 0
    norm_num [flatCurve]

/-- C10: on the terminal frame of a non-looped ride, the maximum height
has been updated to `max maxHeightReached currentHeight` before the
stop, while progress and both smoothed pose vectors are left
unchanged. -/
theorem terminal_frame_effects (c : Curve) (tiltAt : ℝ → ℝ) (hasChainLift : Bool)
    (rideSpeed firstPeak delta : ℝ) (s : RideState)
    (hnp : 1 ≤ newProgressOf c hasChainLift rideSpeed firstPeak delta s) :
    (frameStep c tiltAt true false hasChainLift rideSpeed firstPeak delta s).state.maxHeightReached
        = max s.maxHeightReached (c.pointAt s.progress).y
    ∧ (frameStep c tiltAt true false hasChainLift rideSpeed firstPeak delta s).state.progress
        = s.progress
    ∧ (frameStep c tiltAt true false hasChainLift rideSpeed firstPeak delta s).state.prevCameraPos
        = s.prevCameraPos
    ∧ (frameStep c tiltAt true false hasChainLift rideSpeed firstPeak delta s).state.prevLookAt
        = s.prevLookAt
    ∧ (frameStep c tiltAt true false hasChainLift rideSpeed firstPeak delta s).stopRideCalled
        = true := by
  rw [frameStep_stop c tiltAt hasChainLift rideSpeed firstPeak delta s hnp]
  exact ⟨rfl, rfl, rfl, rfl, rfl⟩

/-- Witness for C10: a flat non-looped ride at progress 9/10 with delta
1 overshoots; the maximum height is updated while progress and the pose
vectors stay put. -/
theorem terminal_frame_effects_witness :
    (frameStep flatCurve zeroTilt true false false 1 0.2 1
        ⟨9 / 10, 0, ⟨1, 2, 3⟩, ⟨4, 5, 6⟩⟩).state.maxHeightReached = 0
    ∧ (frameStep flatCurve zeroTilt true false false 1 0.2 1
        ⟨9 / 10, 0, ⟨1, 2, 3⟩, ⟨4, 5, 6⟩⟩).state.progress = 9 / 10
    ∧ (frameStep flatCurve zeroTilt true false false 1 0.2 1
        ⟨9 / 10, 0, ⟨1, 2, 3⟩, ⟨4, 5, 6⟩⟩).state.prevCameraPos = ⟨1, 2, 3⟩
    ∧ (frameStep flatCurve zeroTilt true false false 1 0.2 1
        ⟨9 / 10, 0, ⟨1, 2, 3⟩, ⟨4, 5, 6⟩⟩).state.prevLookAt = ⟨4, 5, 6⟩
    ∧ (frameStep flatCurve zeroTilt true false false 1 0.2 1
        ⟨9 / 10, 0, ⟨1, 2, 3⟩, ⟨4, 5, 6⟩⟩).stopRideCalled = true := by
  have hnp : 1 ≤ newProgressOf flatCurve false 1 0.2 1
      ⟨9 / 10, 0, ⟨1, 2, 3⟩, ⟨4, 5, 6⟩⟩ := by
    unfold newProgressOf speedOf flatCurve
    norm_num [energySpeed_zero, max_def]
  obtain ⟨h1, h2, h3, h4, h5⟩ :=
    terminal_frame_effects flatCurve zeroTilt false 1 0.2 1 _ hnp
  refine ⟨?_, h2, h3, h4, h5⟩
  rw [h1]
  show max (0 : ℝ) (flatCurve.pointAt (9 / 10 : ℝ)).y = 0
  norm_num [flatCurve]

/-- Witness for C7: a concrete previous pose one unit away from the
target contracts strictly and converges. -/
theorem smoothing_contraction_witness :
    (Vec3.lerp ⟨1, 0, 0⟩ ⟨0, 0, 0⟩ 0.25 - ⟨0, 0, 0⟩).length
        < ((⟨1, 0, 0⟩ : Vec3) - ⟨0, 0, 0⟩).length
    ∧ Filter.Tendsto
        (fun n => ((fun q => Vec3.lerp q ⟨0, 0, 0⟩ 0.25)^[n] ⟨1, 0, 0⟩ - ⟨0, 0, 0⟩).length)
        Filter.atTop (nhds 0) := by
  have hne : (⟨1, 0, 0⟩ : Vec3) ≠ ⟨0, 0, 0⟩ := by
    intro he
    have := congrArg Vec3.x he
    norm_num at this
  obtain ⟨_, hlt, htd⟩ := smoothing_contraction ⟨1, 0, 0⟩ ⟨0, 0, 0⟩ hne
  exact ⟨hlt, htd⟩

end RideCamera
